import Mathlib

set_option autoImplicit false

/- Verification of the request-assembly core of the raider repository
   (src/raider/request.py): plugin resolution for cookies, headers and
   body data, input discovery, request dispatch and template cloning. -/

/-- A user-data context: the per-run, read-only key to value mapping that
plugins resolve against. -/
abbrev Userdata := List (String × String)

/-- Oracle standing for the interactive prompt_empty_value (request.py
lines 39-53): given the element category (Cookie, Header, Value, Key) and
the slot name it returns the operator response line; the empty string
means the operator pressed enter to skip. -/
abbrev PromptOracle := String → String → String

/-- Shallow embedding of the Plugin capability (raider.plugins.common)
as used by request.py: the stable name, the NAME_NOT_KNOWN_IN_ADVANCE and
DEPENDS_ON_OTHER_PLUGINS flags, the children plugins, and get_value. A
Python return of None from get_value is represented by the empty string,
matching the truthiness tests (if not value) in request.py. -/
inductive Plugin where
  | mk (name : String) (name_not_known_in_advance : Bool)
       (depends_on_other_plugins : Bool) (plugins : List Plugin)
       (get_value : Userdata → String)

def Plugin.name : Plugin → String
  | .mk n _ _ _ _ => n

def Plugin.name_not_known_in_advance : Plugin → Bool
  | .mk _ b _ _ _ => b

def Plugin.depends_on_other_plugins : Plugin → Bool
  | .mk _ _ b _ _ => b

def Plugin.plugins : Plugin → List Plugin
  | .mk _ _ _ l _ => l

def Plugin.get_value : Plugin → Userdata → String
  | .mk _ _ _ _ f => f

/-- Python KeyError, the only exception the resolution core itself can
raise (dict.pop or a dict lookup on a missing key). -/
inductive PyError where
  | keyError
deriving DecidableEq

/- Python dictionaries with string keys are modelled as insertion-ordered
association lists with unique keys. -/

/-- Dictionary lookup d[k] as an Option. -/
def dget {β : Type _} (d : List (String × β)) (k : String) : Option β :=
  match d with
  | [] => none
  | e :: rest => if e.1 = k then some e.2 else dget rest k

/-- Python d.update with a single pair: replace the value in place when
the key is present (the entry keeps its position), append otherwise. -/
def dupdate {β : Type _} (d : List (String × β)) (k : String) (v : β) :
    List (String × β) :=
  match d with
  | [] => [(k, v)]
  | e :: rest => if e.1 = k then (e.1, v) :: rest else e :: dupdate rest k v

/-- Python d.pop(k): remove the entry and return the remaining dict, or
none when the key is absent (which in Python raises KeyError). -/
def dpop {β : Type _} (d : List (String × β)) (k : String) :
    Option (List (String × β)) :=
  match d with
  | [] => none
  | e :: rest => if e.1 = k then some rest else (dpop rest k).map (e :: ·)

/-- Python d.update(o) for a whole dictionary o: fold the entries of o
into d in order, override on collision. -/
def dmerge {β : Type _} (d o : List (String × β)) : List (String × β) :=
  o.foldl (fun acc e => dupdate acc e.1 e.2) d

/-- A value slot of a working header or cookie dictionary: the initial
to_dict().copy() holds the Plugin objects themselves, and resolution
replaces them with strings. -/
inductive CV where
  | s (v : String)
  | plug (p : Plugin)

/-- ASCII lowercasing of one character, as Python str.lower acts on the
header names used by request.py. -/
def lowerChar (c : Char) : Char :=
  match c with
  | 'A' => 'a' | 'B' => 'b' | 'C' => 'c' | 'D' => 'd' | 'E' => 'e'
  | 'F' => 'f' | 'G' => 'g' | 'H' => 'h' | 'I' => 'i' | 'J' => 'j'
  | 'K' => 'k' | 'L' => 'l' | 'M' => 'm' | 'N' => 'n' | 'O' => 'o'
  | 'P' => 'p' | 'Q' => 'q' | 'R' => 'r' | 'S' => 's' | 'T' => 't'
  | 'U' => 'u' | 'V' => 'v' | 'W' => 'w' | 'X' => 'x' | 'Y' => 'y'
  | 'Z' => 'z'
  | _ => c

/-- Python str.lower on ASCII names. -/
def pyLower (s : String) : String := String.mk (s.data.map lowerChar)

/-- The run-configuration collaborator (the pconfig argument of
request.py): only the fields the source reads. The userdata field stands
for pconfig.active_user.to_dict() or the empty dict. -/
structure Pconfig where
  user_agent : String
  userdata : Userdata
  verify : Bool
  use_proxy : Bool
  proxy : String
  logger : String

/-- One iteration of the process_cookies loop (request.py lines 61-71):
when NAME_NOT_KNOWN_IN_ADVANCE pop the store key first; resolve, fall back
to the prompt, and on a still empty value pop the store key again,
otherwise store the value under the plugin name. -/
def cookieStep (ud : Userdata) (prompt : PromptOracle)
    (cookies : List (String × CV)) (key : String) (p : Plugin) :
    Except PyError (List (String × CV)) := do
  let name := p.name
  let cookies ←
    if p.name_not_known_in_advance then
      match dpop cookies key with
      | some d => pure d
      | none => throw .keyError
    else
      pure cookies
  let value := p.get_value ud
  let value := if value = "" then prompt "Cookie" name else value
  if value = "" then
    match dpop cookies key with
    | some d => pure d
    | none => throw .keyError
  else
    pure (dupdate cookies name (.s value))

/-- The loop of process_cookies over the raw store entries. -/
def cookieLoop (ud : Userdata) (prompt : PromptOracle) :
    List (String × Plugin) → List (String × CV) →
    Except PyError (List (String × CV))
  | [], cookies => .ok cookies
  | e :: rest, cookies => do
      let cookies ← cookieStep ud prompt cookies e.1 e.2
      cookieLoop ud prompt rest cookies

/-- process_cookies (request.py lines 56-72): start from the
to_dict().copy() of the raw store and run the loop. -/
def process_cookies (raw_cookies : List (String × Plugin)) (userdata : Userdata)
    (prompt : PromptOracle) : Except PyError (List (String × CV)) :=
  cookieLoop userdata prompt raw_cookies
    (raw_cookies.map (fun e => (e.1, CV.plug e.2)))

/-- One iteration of the process_headers loop (request.py lines 81-91):
like cookieStep, except that the empty-value branch pops name.lower()
rather than the store key. -/
def headerStep (ud : Userdata) (prompt : PromptOracle)
    (headers : List (String × CV)) (key : String) (p : Plugin) :
    Except PyError (List (String × CV)) := do
  let name := p.name
  let headers ←
    if p.name_not_known_in_advance then
      match dpop headers key with
      | some d => pure d
      | none => throw .keyError
    else
      pure headers
  let value := p.get_value ud
  let value := if value = "" then prompt "Header" name else value
  if value = "" then
    match dpop headers (pyLower name) with
    | some d => pure d
    | none => throw .keyError
  else
    pure (dupdate headers name (.s value))

/-- The loop of process_headers over the raw store entries. -/
def headerLoop (ud : Userdata) (prompt : PromptOracle) :
    List (String × Plugin) → List (String × CV) →
    Except PyError (List (String × CV))
  | [], headers => .ok headers
  | e :: rest, headers => do
      let headers ← headerStep ud prompt headers e.1 e.2
      headerLoop ud prompt rest headers

/-- process_headers (request.py lines 75-92): start from the
to_dict().copy() of the raw store, inject the user-agent entry from the
run configuration, then run the loop. -/
def process_headers (raw_headers : List (String × Plugin)) (userdata : Userdata)
    (pconfig : Pconfig) (prompt : PromptOracle) :
    Except PyError (List (String × CV)) :=
  headerLoop userdata prompt raw_headers
    (dupdate (raw_headers.map (fun e => (e.1, CV.plug e.2)))
      "user-agent" (.s pconfig.user_agent))

/- Body-data dictionaries: both keys and values may be plugins, and values
may be nested dictionaries. Plugin keys compare by Python object identity,
modelled by a numeric tag. -/

/-- A key of a body-data dictionary: a string or a Plugin object (tagged
with its identity). -/
inductive PKey where
  | s (k : String)
  | plug (id : Nat) (p : Plugin)

/-- Key equality of the Python dictionary: strings compare by value,
plugin objects by identity. -/
def pkeq : PKey → PKey → Bool
  | .s a, .s b => a == b
  | .plug i _, .plug j _ => i == j
  | _, _ => false

/-- A value of a body-data dictionary: a literal string, a Plugin, or a
nested dictionary. -/
inductive PVal where
  | s (v : String)
  | plug (p : Plugin)
  | dict (d : List (PKey × PVal))

/-- Lookup data[k] in a body dictionary. -/
def pget (d : List (PKey × PVal)) (k : PKey) : Option PVal :=
  match d with
  | [] => none
  | e :: rest => if pkeq e.1 k then some e.2 else pget rest k

/-- Python data.update with a single pair on a body dictionary. -/
def pupdate (d : List (PKey × PVal)) (k : PKey) (v : PVal) :
    List (PKey × PVal) :=
  match d with
  | [] => [(k, v)]
  | e :: rest => if pkeq e.1 k then (e.1, v) :: rest else e :: pupdate rest k v

/-- Python data.pop(k) on a body dictionary: the removed value and the
remaining dictionary, or none (KeyError) when the key is absent. -/
def ppop (d : List (PKey × PVal)) (k : PKey) :
    Option (PVal × List (PKey × PVal)) :=
  match d with
  | [] => none
  | e :: rest =>
    if pkeq e.1 k then some (e.2, rest)
    else (ppop rest k).map (fun r => (r.1, e :: r.2))

/-- The body of the traverse_dict loop for one snapshot key (request.py
lines 104-125). The recurse argument is the recursive call into a nested
dictionary. First the value branch: a Plugin value is resolved (with
prompt fallback) and replaced, or the entry is popped on a still empty
result; a nested dictionary is traversed (the in-place mutation of the
nested object is modelled by writing the traversed dictionary back to the
slot). Then the key branch: a Plugin key is popped together with its
current value, the key is resolved (with prompt fallback), and the value
is reinserted under the resolved string key; on a still empty result the
code pops the same key a second time. -/
def tdStep (recurse : List (PKey × PVal) → Except PyError (List (PKey × PVal)))
    (ud : Userdata) (prompt : PromptOracle) (data : List (PKey × PVal))
    (key : PKey) : Except PyError (List (PKey × PVal)) := do
  let value ←
    match pget data key with
    | some v => pure v
    | none => throw .keyError
  let data ←
    match value with
    | .plug p =>
        let nv := p.get_value ud
        let nv := if nv = "" then prompt "Value" p.name else nv
        if nv = "" then
          match ppop data key with
          | some r => pure r.2
          | none => throw .keyError
        else
          pure (pupdate data key (.s nv))
    | .dict sub => do
        let sub2 ← recurse sub
        pure (pupdate data key (.dict sub2))
    | .s _ => pure data
  match key with
  | .plug _ p => do
      let popped ←
        match ppop data key with
        | some r => pure r
        | none => throw .keyError
      let new_value := popped.1
      let data := popped.2
      let nk := p.get_value ud
      let nk := if nk = "" then prompt "Key" p.name else nk
      if nk = "" then
        match ppop data key with
        | some r => pure r.2
        | none => throw .keyError
      else
        pure (pupdate data (.s nk) new_value)
  | .s _ => pure data

/-- The loop of traverse_dict over the snapshot list(data) of keys taken
when the dictionary is entered. -/
def tdLoop (recurse : List (PKey × PVal) → Except PyError (List (PKey × PVal)))
    (ud : Userdata) (prompt : PromptOracle) :
    List PKey → List (PKey × PVal) → Except PyError (List (PKey × PVal))
  | [], data => .ok data
  | key :: rest, data => do
      let data ← tdStep recurse ud prompt data key
      tdLoop recurse ud prompt rest data

/-- traverse_dict (request.py lines 100-125). The Nat argument bounds the
nesting recursion depth; every call below supplies a bound that the actual
nesting cannot reach, so the zero case is never taken there. -/
def traverse_dict (ud : Userdata) (prompt : PromptOracle) :
    Nat → List (PKey × PVal) → Except PyError (List (PKey × PVal))
  | 0, _ => throw .keyError
  | fuel + 1, data =>
      tdLoop (traverse_dict ud prompt fuel) ud prompt (data.map (·.1)) data

mutual

/-- Structural size of a body value, dominating its nesting depth. -/
def pvalSize : PVal → Nat
  | .s _ => 1
  | .plug _ => 1
  | .dict d => 1 + pdictSize d

/-- Structural size of a body dictionary. -/
def pdictSize : List (PKey × PVal) → Nat
  | [] => 1
  | e :: rest => 1 + pvalSize e.2 + pdictSize rest

end

/-- The loop of process_data over the body groups. -/
def pdLoop (ud : Userdata) (prompt : PromptOracle) :
    List (String × List (PKey × PVal)) →
    Except PyError (List (String × List (PKey × PVal)))
  | [] => .ok []
  | (g, store) :: rest => do
      let d ← traverse_dict ud prompt (pdictSize store + 1) store
      let out ← pdLoop ud prompt rest
      pure ((g, d) :: out)

/-- process_data (request.py lines 95-133): traverse the to_dict().copy()
of every body group. The recursion bound pdictSize store + 1 strictly
dominates the nesting depth of the group, so it is never exhausted. -/
def process_data (raw_data : List (String × List (PKey × PVal)))
    (userdata : Userdata) (prompt : PromptOracle) :
    Except PyError (List (String × List (PKey × PVal))) :=
  pdLoop userdata prompt raw_data

/-- The url attribute of a Request: a literal string or a Plugin. -/
inductive UrlV where
  | s (v : String)
  | plug (p : Plugin)

/-- The mutable state of a Request object (request.py lines 166-188): the
method, the url, the cookie and header stores, the body groups keyed by
encoding-group name, the recorded keyword-argument names (self.kwargs
keys), and the logger slot (None until send runs). The transport function
itself is an external collaborator and carries no state of its own. -/
structure RequestState where
  method : String
  url : UrlV
  cookies : List (String × Plugin)
  headers : List (String × Plugin)
  data : List (String × List (PKey × PVal))
  kwargs : List String
  logger : Option String

/-- get_children_plugins inside Request.list_inputs (request.py lines
276-287): when DEPENDS_ON_OTHER_PLUGINS is set, a dictionary of every
child plugin under its own name. -/
def get_children_plugins (plugin : Plugin) : List (String × Plugin) :=
  if plugin.depends_on_other_plugins then
    plugin.plugins.foldl (fun acc i => dupdate acc i.name i) []
  else
    []

/-- Request.list_inputs (request.py lines 273-313). The final loop runs
over self.data.items(), whose keys are the body-group name strings and
whose values are the DataStore containers; neither is ever a Plugin
instance, so the two isinstance tests inside that loop are never true and
the loop contributes nothing. -/
def Request.list_inputs (r : RequestState) : List (String × Plugin) :=
  let inputs : List (String × Plugin) := []
  let inputs :=
    match r.url with
    | .plug p => dmerge (dupdate inputs p.name p) (get_children_plugins p)
    | .s _ => inputs
  let inputs := r.cookies.foldl
    (fun acc e => dmerge (dupdate acc e.1 e.2) (get_children_plugins e.2))
    inputs
  let inputs := r.headers.foldl
    (fun acc e => dmerge (dupdate acc e.1 e.2) (get_children_plugins e.2))
    inputs
  inputs

/-- One hexadecimal digit, upper case as urllib produces it. -/
def hexDigit (n : Nat) : Char :=
  match n with
  | 0 => '0' | 1 => '1' | 2 => '2' | 3 => '3' | 4 => '4'
  | 5 => '5' | 6 => '6' | 7 => '7' | 8 => '8' | 9 => '9'
  | 10 => 'A' | 11 => 'B' | 12 => 'C' | 13 => 'D' | 14 => 'E'
  | _ => 'F'

/-- Percent-encoding of one byte. -/
def quoteByte (b : Nat) : String :=
  "%" ++ String.singleton (hexDigit (b / 16 % 16)) ++
    String.singleton (hexDigit (b % 16))

/-- The characters urllib.parse.quote leaves untouched with the default
safe argument: unreserved characters plus the slash. -/
def quoteSafe (c : Char) : Bool :=
  c.isAlphanum || c == '_' || c == '.' || c == '-' || c == '~' || c == '/'

/-- urllib.parse.quote: percent-encode every unsafe character byte by
byte; in particular a space becomes %20. -/
def pyQuote (s : String) : String :=
  s.data.foldl
    (fun acc c =>
      if quoteSafe c then acc ++ String.singleton c
      else acc ++ String.join ((String.utf8EncodeChar c).map
        (fun b => quoteByte b.toNat)))
    ""

/-- The string urlencode renders for a body value: strings stay
themselves; the Python str() text of a non-string object is abstracted by
a tag (no claim depends on it). -/
def pvalStr : PVal → String
  | .s v => v
  | .plug p => "<plugin " ++ p.name ++ ">"
  | .dict _ => "<dict>"

/-- The string urlencode renders for a body key. -/
def pkeyStr : PKey → String
  | .s k => k
  | .plug _ p => "<plugin " ++ p.name ++ ">"

/-- urllib.parse.urlencode with quote_via=urllib.parse.quote (request.py
lines 357-360). -/
def urlencode (d : List (PKey × PVal)) : String :=
  String.intercalate "&"
    (d.map (fun e => pyQuote (pkeyStr e.1) ++ "=" ++ pyQuote (pvalStr e.2)))

/-- A non-fatal warning emitted by Request.send (request.py lines
364-371): the GET warning listing the ignored body groups, or the
undefined-behaviour warning of a non-GET request. -/
inductive SendWarning where
  | getIgnored (groups : List String)
  | undefinedBehaviour (method : String) (groups : List String)
deriving DecidableEq

/-- Everything Request.send computes and hands to the transport
collaborator, together with the warnings it logged. -/
structure SendResult where
  warnings : List SendWarning
  url : UrlV
  cookies : List (String × CV)
  headers : List (String × CV)
  proxies : Option (List (String × String))
  verify : Bool
  params : Option String
  dataOut : Option (List (PKey × PVal))
  jsonOut : Option (List (PKey × PVal))
  multipartOut : Option (List (PKey × PVal))

/-- The in-place url resolution step of send (request.py lines 349-350):
when the url attribute holds a Plugin, its resolved value is assigned back
to the attribute; a literal url is untouched. There is no prompt fallback
and no dropping here, an empty resolution is stored as the empty url. -/
def urlStep (req : RequestState) (ud : Userdata) : RequestState :=
  match req.url with
  | .plug p => { req with url := .s (p.get_value ud) }
  | .s _ => req

/-- The body-group names among the keyword names (request.py line 364).
The Python set intersection is kept in canonical group order. -/
def sendAttrs (kwargs : List String) : List String :=
  ["data", "json", "multipart"].filter (fun g => g ∈ kwargs)

/-- Request.send (request.py lines 315-399) up to the transport call:
store the logger, build the proxies, resolve a Plugin url in place onto
the url attribute, resolve cookies, headers and body groups, url-encode
the params group when the params keyword was given, and compute the
body-group warnings. The transport invocation itself and its response are
external. -/
def Request.send (req : RequestState) (pconfig : Pconfig)
    (prompt : PromptOracle) :
    Except PyError (RequestState × SendResult) := do
  let userdata := pconfig.userdata
  let req := { req with logger := some pconfig.logger }
  let proxies := if pconfig.use_proxy then some [("all", pconfig.proxy)] else none
  let req := urlStep req userdata
  let cookies ← process_cookies req.cookies userdata prompt
  let headers ← process_headers req.headers userdata pconfig prompt
  let processed ← process_data req.data userdata prompt
  let params ←
    if "params" ∈ req.kwargs then
      match dget processed "params" with
      | some d => pure (some (urlencode d))
      | none => throw .keyError
    else
      pure none
  let attrs := sendAttrs req.kwargs
  let warnings :=
    if req.method = "GET" ∧ attrs ≠ [] then [SendWarning.getIgnored attrs]
    else if attrs ≠ [] then [SendWarning.undefinedBehaviour req.method attrs]
    else []
  pure (req,
    { warnings := warnings
      url := req.url
      cookies := cookies
      headers := headers
      proxies := proxies
      verify := pconfig.verify
      params := params
      dataOut := dget processed "data"
      jsonOut := dget processed "json"
      multipartOut := dget processed "multipart" })

/-- Modelled from the spec: CookieStore construction (raider.structures is
not among the sources). Per the spec a container is an ordered name-keyed
collection with unique names, so the store keys each cookie plugin by its
name, later entries overriding earlier ones of the same name. -/
def CookieStore.fromList (cs : List Plugin) : List (String × Plugin) :=
  cs.foldl (fun acc c => dupdate acc c.name c) []

/-- Modelled from the spec: HeaderStore construction (raider.structures is
not among the sources). Header names are case-insensitive, and
process_headers pops name.lower(), so the store keys each header plugin by
its lowercased name. -/
def HeaderStore.fromList (hs : List Plugin) : List (String × Plugin) :=
  hs.foldl (fun acc h => dupdate acc (pyLower h.name) h) []

/-- Python truthiness of a url argument: the empty string is falsy, a
non-empty string or a Plugin object is truthy. -/
def urlTruthy : UrlV → Bool
  | .s v => !(v == "")
  | .plug _ => true

/-- Template.__call__ (request.py lines 430-462) at the value level: the
deepcopy step is the identity on values (its heap-level content, sharing
and non-sharing, is modelled separately below); a truthy method or url
override replaces the field wholesale, truthy cookies and headers
overrides are merged into the copied stores (spec-modelled merge: union
with the override entries winning on collision), and a truthy data
override is shallow-merged into the body groups. -/
def Template.call (t : RequestState) (method : Option String)
    (url : Option UrlV) (cookies : Option (List Plugin))
    (headers : Option (List Plugin))
    (data : Option (List (String × List (PKey × PVal)))) : RequestState :=
  let t :=
    match method with
    | some m => if m = "" then t else { t with method := m }
    | none => t
  let t :=
    match url with
    | some u => if urlTruthy u then { t with url := u } else t
    | none => t
  let t :=
    match cookies with
    | some [] => t
    | some cs => { t with cookies := dmerge t.cookies (CookieStore.fromList cs) }
    | none => t
  let t :=
    match headers with
    | some [] => t
    | some hs => { t with headers := dmerge t.headers (HeaderStore.fromList hs) }
    | none => t
  let t :=
    match data with
    | some [] => t
    | some d => { t with data := dmerge t.data d }
    | none => t
  t

/- Heap model of Python object identity, used for the deepcopy semantics
of Template.__call__. An object is a heap cell: a scalar payload standing
for its own stored values and a list of references to the objects its
attributes point at (containers, plugins, children plugins). Mutating an
attribute of an object is a write to its cell; two access paths that reach
the same cell alias each other. -/

/-- One Python object: its own scalar state and its outgoing references. -/
structure PNode where
  payload : String
  children : List Nat
deriving DecidableEq

/-- A heap: cells keyed by object identity. -/
abbrev PHeap := List (Nat × PNode)

/-- Read the cell with identity i. -/
def heapGet (h : PHeap) (i : Nat) : Option PNode :=
  match h with
  | [] => none
  | e :: rest => if e.1 = i then some e.2 else heapGet rest i

/-- Mutate the object with identity i: overwrite its scalar payload. Every
path that reaches identity i observes the write. -/
def heapSet (h : PHeap) (i : Nat) (s : String) : PHeap :=
  h.map (fun e => if e.1 = i then (e.1, { e.2 with payload := s }) else e)

mutual

/-- copy.deepcopy of the object graph rooted at identity i: clone the
children first, then allocate a fresh cell for the node itself. Fresh
identities are drawn from the counter, which starts above every identity
in use. The Nat fuel bounds the traversal depth and dominates it at every
use below. Returns the extended heap, the next counter and the identity of
the copy. -/
def dcNode : Nat → PHeap → Nat → Nat → PHeap × Nat × Nat
  | 0, h, ctr, _ => (h ++ [(ctr, ⟨"", []⟩)], ctr + 1, ctr)
  | fuel + 1, h, ctr, i =>
      let n := (heapGet h i).getD ⟨"", []⟩
      let r := dcList fuel h ctr n.children
      (r.1 ++ [(r.2.1, ⟨n.payload, r.2.2⟩)], r.2.1 + 1, r.2.1)

/-- deepcopy of a list of references, threading heap and counter. -/
def dcList : Nat → PHeap → Nat → List Nat → PHeap × Nat × List Nat
  | 0, h, ctr, _ => (h, ctr, [])
  | _ + 1, h, ctr, [] => (h, ctr, [])
  | fuel + 1, h, ctr, i :: rest =>
      let r1 := dcNode fuel h ctr i
      let r2 := dcList fuel r1.1 r1.2.1 rest
      (r2.1, r2.2.1, r1.2.2 :: r2.2.2)

end

/-- Attach extra references to the object with identity i without copying
them: this is what the merge steps of Template.__call__ do with the
override objects the caller passes in. -/
def attachChildren (h : PHeap) (i : Nat) (refs : List Nat) : PHeap :=
  h.map (fun e =>
    if e.1 = i then (e.1, ⟨e.2.payload, e.2.children ++ refs⟩) else e)

/-- Template.__call__ (request.py lines 430-462) at the heap level:
template = deepcopy(self) first, then the override arguments are merged
into the copy by reference (CookieStore(cookies) and the merge insert the
very plugin objects the caller supplied; the url and method assignments
likewise store the given objects). Returns the heap, the next fresh
identity and the identity of the new instance. -/
def templateCallHeap (h : PHeap) (fuel ctr tplRoot : Nat)
    (overrides : List Nat) : PHeap × Nat × Nat :=
  let r := dcNode fuel h ctr tplRoot
  (attachChildren r.1 r.2.2 overrides, r.2.1, r.2.2)

/- Association-list dictionary lemmas. -/

/-- The keys of a dictionary, in order. -/
def keysOf {β : Type _} (d : List (String × β)) : List String := d.map Prod.fst

/-- The last binding of a key in a list of pairs, matching what a fold of
updates leaves behind when keys repeat. -/
def dgetLast {β : Type _} (d : List (String × β)) (k : String) : Option β :=
  match d with
  | [] => none
  | e :: rest => dgetLast rest k <|> (if e.1 = k then some e.2 else none)

theorem dget_dupdate_self {β : Type _} (d : List (String × β)) (k : String)
    (v : β) : dget (dupdate d k v) k = some v := by
  induction d with
  | nil => simp [dget, dupdate]
  | cons e rest ih =>
    by_cases h : e.1 = k
    · simp [dget, dupdate, h]
    · simp [dget, dupdate, h, ih]

theorem dget_dupdate_ne {β : Type _} (d : List (String × β)) (k : String)
    (v : β) (j : String) (h : k ≠ j) :
    dget (dupdate d k v) j = dget d j := by
  induction d with
  | nil => simp [dget, dupdate, h]
  | cons e rest ih =>
    by_cases he : e.1 = k
    · have hj : ¬e.1 = j := by rw [he]; exact h
      simp [dget, dupdate, he, h, hj]
    · simp only [dupdate, if_neg he, dget]
      by_cases hj : e.1 = j
      · simp [hj]
      · simp [hj, ih]

theorem dget_dpop_ne {β : Type _} (d d1 : List (String × β)) (k j : String)
    (h : dpop d k = some d1) (hne : k ≠ j) : dget d1 j = dget d j := by
  induction d generalizing d1 with
  | nil => simp [dpop] at h
  | cons e rest ih =>
    by_cases he : e.1 = k
    · simp only [dpop, if_pos he] at h
      cases h
      have hj : ¬e.1 = j := by rw [he]; exact hne
      simp [dget, hj]
    · simp only [dpop, if_neg he] at h
      cases hr : dpop rest k with
      | none => rw [hr] at h; simp at h
      | some r =>
        rw [hr] at h
        simp at h
        subst h
        by_cases hj : e.1 = j
        · simp [dget, hj]
        · simp [dget, hj, ih r hr]

theorem mem_keys_dupdate {β : Type _} (d : List (String × β)) (k : String)
    (v : β) (j : String) :
    j ∈ keysOf (dupdate d k v) ↔ j ∈ keysOf d ∨ j = k := by
  induction d with
  | nil => simp [keysOf, dupdate, eq_comm]
  | cons e rest ih =>
    by_cases he : e.1 = k
    · subst he
      simp [keysOf, dupdate]
      tauto
    · simp only [dupdate, if_neg he, keysOf, List.map_cons, List.mem_cons] at *
      tauto

theorem nodup_keys_dupdate {β : Type _} (d : List (String × β)) (k : String)
    (v : β) (h : (keysOf d).Nodup) : (keysOf (dupdate d k v)).Nodup := by
  induction d with
  | nil => simp [keysOf, dupdate]
  | cons e rest ih =>
    by_cases he : e.1 = k
    · simpa [keysOf, dupdate, he] using h
    · simp only [keysOf, List.map_cons, List.nodup_cons] at h
      simp only [dupdate, if_neg he, keysOf, List.map_cons, List.nodup_cons]
      refine ⟨?_, ih h.2⟩
      intro hc
      rcases (mem_keys_dupdate rest k v e.1).mp hc with hm | hm
      · exact h.1 hm
      · exact he hm

theorem dget_eq_none_of_not_mem {β : Type _} (d : List (String × β))
    (k : String) (h : k ∉ keysOf d) : dget d k = none := by
  induction d with
  | nil => simp [dget]
  | cons e rest ih =>
    simp only [keysOf, List.map_cons, List.mem_cons] at h
    push_neg at h
    have he : ¬e.1 = k := fun hc => h.1 hc.symm
    simp [dget, he, ih (by simpa [keysOf] using h.2)]

theorem dgetLast_eq_none_of_not_mem {β : Type _} (d : List (String × β))
    (k : String) (h : k ∉ keysOf d) : dgetLast d k = none := by
  induction d with
  | nil => simp [dgetLast]
  | cons e rest ih =>
    simp only [keysOf, List.map_cons, List.mem_cons] at h
    push_neg at h
    have he : ¬e.1 = k := fun hc => h.1 hc.symm
    simp [dgetLast, he, ih (by simpa [keysOf] using h.2)]

theorem dgetLast_eq_dget_of_nodup {β : Type _} (d : List (String × β))
    (k : String) (h : (keysOf d).Nodup) : dgetLast d k = dget d k := by
  induction d with
  | nil => simp [dgetLast, dget]
  | cons e rest ih =>
    simp only [keysOf, List.map_cons, List.nodup_cons] at h
    by_cases he : e.1 = k
    · subst he
      rw [dgetLast, dgetLast_eq_none_of_not_mem rest e.1 (by simpa [keysOf] using h.1)]
      simp [dget]
    · simp [dgetLast, dget, he, ih h.2]

theorem dget_dmerge {β : Type _} (d o : List (String × β)) (k : String) :
    dget (dmerge d o) k = (dgetLast o k <|> dget d k) := by
  induction o generalizing d with
  | nil => simp [dmerge, dgetLast]
  | cons e rest ih =>
    show dget (dmerge (dupdate d e.1 e.2) rest) k = _
    rw [ih]
    cases hl : dgetLast rest k with
    | some v => simp [dgetLast, hl]
    | none =>
      by_cases he : e.1 = k
      · subst he
        simp [dgetLast, hl, dget_dupdate_self]
      · simp [dgetLast, hl, he, dget_dupdate_ne d e.1 e.2 k he]

theorem nodup_keys_foldl_dupdate {α β : Type _} (f : α → String) (g : α → β)
    (l : List α) :
    ∀ d : List (String × β), (keysOf d).Nodup →
      (keysOf (l.foldl (fun acc a => dupdate acc (f a) (g a)) d)).Nodup := by
  induction l with
  | nil => intro d h; simpa using h
  | cons a rest ih =>
    intro d h
    exact ih (dupdate d (f a) (g a)) (nodup_keys_dupdate d (f a) (g a) h)

theorem dupdate_cons_ne {β : Type _} (a : String × β) (d : List (String × β))
    (k : String) (v : β) (h : a.1 ≠ k) :
    dupdate (a :: d) k v = a :: dupdate d k v := by
  simp [dupdate, h]

theorem dupdate_append_of_not_mem {β : Type _} (d : List (String × β))
    (k : String) (v : β) (h : k ∉ keysOf d) :
    dupdate d k v = d ++ [(k, v)] := by
  induction d with
  | nil => simp [dupdate]
  | cons e rest ih =>
    simp only [keysOf, List.map_cons, List.mem_cons] at h
    push_neg at h
    have he : ¬e.1 = k := fun hc => h.1 hc.symm
    simp [dupdate, he, ih (by simpa [keysOf] using h.2)]

theorem foldl_dupdate_cons {α β : Type _} (f : α → String) (g : α → β)
    (l : List α) :
    ∀ (a : String × β) (D : List (String × β)), (∀ x ∈ l, f x ≠ a.1) →
      l.foldl (fun acc x => dupdate acc (f x) (g x)) (a :: D) =
        a :: l.foldl (fun acc x => dupdate acc (f x) (g x)) D := by
  induction l with
  | nil => intro a D _; rfl
  | cons x rest ih =>
    intro a D h
    have hx : a.1 ≠ f x := fun hc => h x (by simp) hc.symm
    show rest.foldl _ (dupdate (a :: D) (f x) (g x)) = _
    rw [dupdate_cons_ne a D (f x) (g x) hx]
    exact ih a (dupdate D (f x) (g x)) (fun y hy => h y (by simp [hy]))

theorem foldl_dupdate_map (raw : List (String × Plugin)) (w : Plugin → CV) :
    ∀ suffix : List (String × CV), (keysOf raw).Nodup →
      (∀ e ∈ raw, e.1 = e.2.name) →
      raw.foldl (fun acc e => dupdate acc e.2.name (w e.2))
          ((raw.map (fun e => (e.1, CV.plug e.2))) ++ suffix) =
        (raw.map (fun e => (e.1, w e.2))) ++ suffix := by
  induction raw with
  | nil => intro suffix _ _; rfl
  | cons a rest ih =>
    intro suffix hnd hkey
    simp only [keysOf, List.map_cons, List.nodup_cons] at hnd
    have ha : a.1 = a.2.name := hkey a (by simp)
    show rest.foldl _
        (dupdate ((a.1, CV.plug a.2) :: (rest.map _ ++ suffix)) a.2.name (w a.2)) = _
    rw [show dupdate ((a.1, CV.plug a.2) :: (rest.map (fun e => (e.1, CV.plug e.2)) ++ suffix))
          a.2.name (w a.2) =
        (a.1, w a.2) :: (rest.map (fun e => (e.1, CV.plug e.2)) ++ suffix) by
      simp [dupdate, ha]]
    rw [foldl_dupdate_cons (fun e => e.2.name) (fun e => w e.2) rest
      (a.1, w a.2) _ ?_]
    · rw [ih suffix hnd.2 (fun e he => hkey e (by simp [he]))]
      rfl
    · intro x hx hc
      simp only at hc
      apply hnd.1
      rw [← hc, ← hkey x (by simp [hx])]
      exact List.mem_map_of_mem Prod.fst hx

/-- cookieStep on an entry whose plugin has a known name and resolves to a
non-empty value: the value is stored under the plugin name. -/
theorem cookieStep_static (ud : Userdata) (prompt : PromptOracle)
    (d : List (String × CV)) (k : String) (p : Plugin)
    (h1 : p.name_not_known_in_advance = false) (h2 : p.get_value ud ≠ "") :
    cookieStep ud prompt d k p = .ok (dupdate d p.name (.s (p.get_value ud))) := by
  simp [cookieStep, h1, h2, pure, Except.pure, bind, Except.bind]

/-- headerStep on an entry whose plugin has a known name and resolves to a
non-empty value. -/
theorem headerStep_static (ud : Userdata) (prompt : PromptOracle)
    (d : List (String × CV)) (k : String) (p : Plugin)
    (h1 : p.name_not_known_in_advance = false) (h2 : p.get_value ud ≠ "") :
    headerStep ud prompt d k p = .ok (dupdate d p.name (.s (p.get_value ud))) := by
  simp [headerStep, h1, h2, pure, Except.pure, bind, Except.bind]

theorem cookieLoop_static (ud : Userdata) (prompt : PromptOracle)
    (raw : List (String × Plugin)) :
    ∀ d : List (String × CV),
      (∀ e ∈ raw, e.2.name_not_known_in_advance = false ∧ e.2.get_value ud ≠ "") →
      cookieLoop ud prompt raw d =
        .ok (raw.foldl (fun acc e => dupdate acc e.2.name (.s (e.2.get_value ud))) d) := by
  induction raw with
  | nil => intro d _; rfl
  | cons e rest ih =>
    intro d h
    have he := h e (by simp)
    show (cookieStep ud prompt d e.1 e.2).bind _ = _
    rw [cookieStep_static ud prompt d e.1 e.2 he.1 he.2]
    exact ih _ (fun x hx => h x (by simp [hx]))

theorem headerLoop_static (ud : Userdata) (prompt : PromptOracle)
    (raw : List (String × Plugin)) :
    ∀ d : List (String × CV),
      (∀ e ∈ raw, e.2.name_not_known_in_advance = false ∧ e.2.get_value ud ≠ "") →
      headerLoop ud prompt raw d =
        .ok (raw.foldl (fun acc e => dupdate acc e.2.name (.s (e.2.get_value ud))) d) := by
  induction raw with
  | nil => intro d _; rfl
  | cons e rest ih =>
    intro d h
    have he := h e (by simp)
    show (headerStep ud prompt d e.1 e.2).bind _ = _
    rw [headerStep_static ud prompt d e.1 e.2 he.1 he.2]
    exact ih _ (fun x hx => h x (by simp [hx]))

/-- A successful headerStep never touches a dictionary key j that differs
from the store key, from the plugin name and from its lowercasing: every
pop and update of the iteration targets one of those three keys. -/
theorem headerStep_preserve (ud : Userdata) (prompt : PromptOracle)
    (d d2 : List (String × CV)) (k : String) (p : Plugin) (j : String)
    (hk : k ≠ j) (hn : p.name ≠ j) (hl : pyLower p.name ≠ j)
    (hstep : headerStep ud prompt d k p = .ok d2) :
    dget d2 j = dget d j := by
  unfold headerStep at hstep
  by_cases hnnk : p.name_not_known_in_advance = true
  · simp only [hnnk, if_true] at hstep
    cases hd : dpop d k with
    | none =>
      rw [hd] at hstep
      simp [bind, Except.bind, throw, throwThe, MonadExceptOf.throw] at hstep
    | some d1 =>
      rw [hd] at hstep
      simp only [bind, Except.bind, pure, Except.pure] at hstep
      have base : dget d1 j = dget d j := dget_dpop_ne d d1 k j hd hk
      by_cases hv : (if p.get_value ud = "" then prompt "Header" p.name
          else p.get_value ud) = ""
      · simp only [hv, if_pos, if_true] at hstep
        cases hp : dpop d1 (pyLower p.name) with
        | none =>
          rw [hp] at hstep
          simp [throw, throwThe, MonadExceptOf.throw] at hstep
        | some dr =>
          rw [hp] at hstep
          simp only [Except.ok.injEq] at hstep
          subst hstep
          rw [dget_dpop_ne d1 dr (pyLower p.name) j hp hl, base]
      · simp only [hv, if_neg, if_false] at hstep
        simp only [Except.ok.injEq] at hstep
        subst hstep
        rw [dget_dupdate_ne d1 p.name _ j hn, base]
  · simp only [Bool.not_eq_true] at hnnk
    simp only [hnnk, Bool.false_eq_true, if_false, bind, Except.bind, pure,
      Except.pure] at hstep
    by_cases hv : (if p.get_value ud = "" then prompt "Header" p.name
        else p.get_value ud) = ""
    · simp only [hv, if_pos, if_true] at hstep
      cases hp : dpop d (pyLower p.name) with
      | none =>
        rw [hp] at hstep
        simp [throw, throwThe, MonadExceptOf.throw] at hstep
      | some dr =>
        rw [hp] at hstep
        simp only [Except.ok.injEq] at hstep
        subst hstep
        exact dget_dpop_ne d dr (pyLower p.name) j hp hl
    · simp only [hv, if_neg, if_false] at hstep
      simp only [Except.ok.injEq] at hstep
      subst hstep
      exact dget_dupdate_ne d p.name _ j hn

/-- A successful run of the process_headers loop preserves the binding of
any key j that no iteration targets. -/
theorem headerLoop_preserve (ud : Userdata) (prompt : PromptOracle) (j : String) :
    ∀ (raw : List (String × Plugin)) (d m : List (String × CV)),
      (∀ e ∈ raw, e.1 ≠ j ∧ e.2.name ≠ j ∧ pyLower e.2.name ≠ j) →
      headerLoop ud prompt raw d = .ok m →
      dget m j = dget d j := by
  intro raw
  induction raw with
  | nil =>
    intro d m _ h
    simp only [headerLoop, Except.ok.injEq] at h
    subst h
    rfl
  | cons e rest ih =>
    intro d m hj h
    have he := hj e (by simp)
    show dget m j = dget d j
    rw [show headerLoop ud prompt (e :: rest) d =
        (headerStep ud prompt d e.1 e.2).bind
          (fun d1 => headerLoop ud prompt rest d1) from rfl] at h
    cases hs : headerStep ud prompt d e.1 e.2 with
    | error er => rw [hs] at h; simp [Except.bind] at h
    | ok d1 =>
      rw [hs] at h
      simp only [Except.bind] at h
      rw [ih d1 m (fun x hx => hj x (by simp [hx])) h]
      exact headerStep_preserve ud prompt d d1 e.1 e.2 j he.1 he.2.1 he.2.2 hs

/-- A successful pdLoop yields one traversed group per input group: the
same group names are present. -/
theorem pdLoop_isSome (ud : Userdata) (prompt : PromptOracle) :
    ∀ (raw out : List (String × List (PKey × PVal))),
      pdLoop ud prompt raw = .ok out →
      ∀ g, (dget out g).isSome = (dget raw g).isSome := by
  intro raw
  induction raw with
  | nil =>
    intro out h g
    simp only [pdLoop, Except.ok.injEq] at h
    subst h
    rfl
  | cons e rest ih =>
    intro out h g
    obtain ⟨gname, store⟩ := e
    rw [show pdLoop ud prompt ((gname, store) :: rest) =
        (traverse_dict ud prompt (pdictSize store + 1) store).bind (fun d =>
          (pdLoop ud prompt rest).bind (fun outr => .ok ((gname, d) :: outr)))
        from rfl] at h
    cases ht : traverse_dict ud prompt (pdictSize store + 1) store with
    | error er => rw [ht] at h; simp [Except.bind] at h
    | ok dres =>
      rw [ht] at h
      simp only [Except.bind] at h
      cases hr : pdLoop ud prompt rest with
      | error er => rw [hr] at h; simp at h
      | ok outr =>
        rw [hr] at h
        simp only [Except.ok.injEq] at h
        subst h
        by_cases hg : gname = g
        · simp [dget, hg]
        · simp only [dget, hg, if_false]
          exact ih outr hr g

/-- Whether a body key is a plain string. -/
def isStrKey : PKey → Bool
  | .s _ => true
  | .plug _ _ => false

/-- Whether a body value is a plain string. -/
def isStrVal : PVal → Bool
  | .s _ => true
  | _ => false

/-- A body group whose entries are all literal: string keys bound to
string values. -/
def flatLit (d : List (PKey × PVal)) : Prop :=
  ∀ e ∈ d, isStrKey e.1 = true ∧ isStrVal e.2 = true

theorem pkeq_refl (k : PKey) : pkeq k k = true := by
  cases k <;> simp [pkeq]

theorem pget_isSome_of_mem (d : List (PKey × PVal)) (k : PKey)
    (h : k ∈ d.map Prod.fst) : (pget d k).isSome = true := by
  induction d with
  | nil => simp at h
  | cons e rest ih =>
    simp only [List.map_cons, List.mem_cons] at h
    rcases h with h | h
    · subst h
      simp [pget, pkeq_refl]
    · by_cases hk : pkeq e.1 k = true
      · simp [pget, hk]
      · simp [pget, hk, ih h]

theorem pget_flat (d : List (PKey × PVal)) (k : PKey) (v : PVal)
    (hd : flatLit d) (h : pget d k = some v) : isStrVal v = true := by
  induction d with
  | nil => simp [pget] at h
  | cons e rest ih =>
    by_cases hk : pkeq e.1 k = true
    · simp only [pget, hk, if_true, Option.some.injEq] at h
      subst h
      exact (hd e (by simp)).2
    · simp only [pget, hk, if_false] at h
      exact ih (fun x hx => hd x (by simp [hx])) h

/-- tdStep on a literal entry (string key, string value) leaves the
dictionary untouched. -/
theorem tdStep_lit (recurse : List (PKey × PVal) → Except PyError (List (PKey × PVal)))
    (ud : Userdata) (prompt : PromptOracle) (d : List (PKey × PVal)) (k : PKey)
    (hd : flatLit d) (hk : isStrKey k = true)
    (hsome : (pget d k).isSome = true) :
    tdStep recurse ud prompt d k = .ok d := by
  cases hg : pget d k with
  | none => rw [hg] at hsome; simp at hsome
  | some v =>
    have hv := pget_flat d k v hd hg
    cases v with
    | s sv =>
      cases k with
      | s sk => simp [tdStep, hg, bind, Except.bind, pure, Except.pure]
      | plug i p => simp [isStrKey] at hk
    | plug p => simp [isStrVal] at hv
    | dict sub => simp [isStrVal] at hv

/-- The traverse_dict loop on a fully literal dictionary returns it
unchanged. -/
theorem tdLoop_lit (recurse : List (PKey × PVal) → Except PyError (List (PKey × PVal)))
    (ud : Userdata) (prompt : PromptOracle) (d : List (PKey × PVal))
    (hd : flatLit d) :
    ∀ keys : List PKey,
      (∀ k ∈ keys, isStrKey k = true ∧ (pget d k).isSome = true) →
      tdLoop recurse ud prompt keys d = .ok d := by
  intro keys
  induction keys with
  | nil => intro _; rfl
  | cons k rest ih =>
    intro h
    have hk := h k (by simp)
    show (tdStep recurse ud prompt d k).bind _ = _
    rw [tdStep_lit recurse ud prompt d k hd hk.1 hk.2]
    exact ih (fun x hx => h x (by simp [hx]))

/-- traverse_dict with positive recursion bound on a fully literal
dictionary returns it unchanged. -/
theorem traverse_dict_lit (ud : Userdata) (prompt : PromptOracle)
    (fuel : Nat) (d : List (PKey × PVal)) (hd : flatLit d) :
    traverse_dict ud prompt (fuel + 1) d = .ok d := by
  show tdLoop _ ud prompt (d.map (·.1)) d = .ok d
  refine tdLoop_lit _ ud prompt d hd (d.map (·.1)) ?_
  intro k hk
  simp only [List.mem_map] at hk
  obtain ⟨e, he, hke⟩ := hk
  constructor
  · rw [← hke]
    exact (hd e he).1
  · exact pget_isSome_of_mem d k (by
      simp only [List.mem_map]
      exact ⟨e, he, hke⟩)

/-- process_data on fully literal groups is the identity. -/
theorem process_data_lit (ud : Userdata) (prompt : PromptOracle) :
    ∀ raw : List (String × List (PKey × PVal)),
      (∀ e ∈ raw, flatLit e.2) →
      process_data raw ud prompt = .ok raw := by
  intro raw
  induction raw with
  | nil => intro _; rfl
  | cons e rest ih =>
    intro h
    obtain ⟨gname, store⟩ := e
    show pdLoop ud prompt ((gname, store) :: rest) = _
    rw [show pdLoop ud prompt ((gname, store) :: rest) =
        (traverse_dict ud prompt (pdictSize store + 1) store).bind (fun d =>
          (pdLoop ud prompt rest).bind (fun outr => .ok ((gname, d) :: outr)))
        from rfl]
    rw [traverse_dict_lit ud prompt (pdictSize store) store
      (h (gname, store) (by simp))]
    simp only [Except.bind]
    rw [show pdLoop ud prompt rest = process_data rest ud prompt from rfl,
      ih (fun x hx => h x (by simp [hx]))]

theorem heapSet_cons (e : Nat × PNode) (rest : PHeap) (i : Nat) (s : String) :
    heapSet (e :: rest) i s =
      (if e.1 = i then (e.1, { e.2 with payload := s }) else e) :: heapSet rest i s := rfl

theorem attachChildren_cons (e : Nat × PNode) (rest : PHeap) (i : Nat)
    (refs : List Nat) :
    attachChildren (e :: rest) i refs =
      (if e.1 = i then (e.1, ⟨e.2.payload, e.2.children ++ refs⟩) else e) ::
        attachChildren rest i refs := rfl

theorem heapGet_heapSet_ne (h : PHeap) (i j : Nat) (s : String)
    (hne : i ≠ j) : heapGet (heapSet h i s) j = heapGet h j := by
  induction h with
  | nil => rfl
  | cons e rest ih =>
    rw [heapSet_cons]
    by_cases hei : e.1 = i
    · rw [if_pos hei]
      have hej : ¬e.1 = j := fun hc => hne (hei ▸ hc)
      simp [heapGet, hej, ih]
    · rw [if_neg hei]
      by_cases hej : e.1 = j
      · simp [heapGet, hej]
      · simp [heapGet, hej, ih]

theorem heapGet_attachChildren_ne (h : PHeap) (i j : Nat) (refs : List Nat)
    (hne : i ≠ j) : heapGet (attachChildren h i refs) j = heapGet h j := by
  induction h with
  | nil => rfl
  | cons e rest ih =>
    rw [attachChildren_cons]
    by_cases hei : e.1 = i
    · rw [if_pos hei]
      have hej : ¬e.1 = j := fun hc => hne (hei ▸ hc)
      simp [heapGet, hej, ih]
    · rw [if_neg hei]
      by_cases hej : e.1 = j
      · simp [heapGet, hej]
      · simp [heapGet, hej, ih]

theorem heapGet_none_of_ge (ext : PHeap) (j base : Nat) (hj : j < base)
    (hext : ∀ e ∈ ext, base ≤ e.1) : heapGet ext j = none := by
  induction ext with
  | nil => rfl
  | cons e rest ih =>
    have he : ¬e.1 = j := by
      intro hc
      have := hext e (by simp)
      omega
    simp [heapGet, he, ih (fun x hx => hext x (by simp [hx]))]

theorem heapGet_append_lt (h ext : PHeap) (j base : Nat) (hj : j < base)
    (hext : ∀ e ∈ ext, base ≤ e.1) : heapGet (h ++ ext) j = heapGet h j := by
  induction h with
  | nil => simpa using heapGet_none_of_ge ext j base hj hext
  | cons e rest ih =>
    by_cases hej : e.1 = j
    · simp [heapGet, hej]
    · simp [heapGet, hej, ih]

/-- Specification of the deepcopy pass: it only appends cells, every
appended cell and the copied root carry a fresh identity at or above the
counter, and the counter never decreases. -/
theorem dc_spec (fuel : Nat) :
    (∀ (h : PHeap) (ctr i : Nat), ∃ ext,
      (dcNode fuel h ctr i).1 = h ++ ext ∧
      (∀ e ∈ ext, ctr ≤ e.1) ∧
      ctr ≤ (dcNode fuel h ctr i).2.1 ∧
      ctr ≤ (dcNode fuel h ctr i).2.2 ∧
      (dcNode fuel h ctr i).2.2 < (dcNode fuel h ctr i).2.1) ∧
    (∀ (h : PHeap) (ctr : Nat) (l : List Nat), ∃ ext,
      (dcList fuel h ctr l).1 = h ++ ext ∧
      (∀ e ∈ ext, ctr ≤ e.1) ∧
      ctr ≤ (dcList fuel h ctr l).2.1) := by
  induction fuel with
  | zero =>
    constructor
    · intro h ctr i
      refine ⟨[(ctr, ⟨"", []⟩)], rfl, ?_, ?_, ?_, ?_⟩ <;> simp [dcNode]
    · intro h ctr l
      exact ⟨[], by simp [dcList], by simp, by simp [dcList]⟩
  | succ f ih =>
    constructor
    · intro h ctr i
      obtain ⟨ext1, he1, hid1, hctr1⟩ :=
        ih.2 h ctr ((heapGet h i).getD ⟨"", []⟩).children
      refine ⟨ext1 ++ [((dcList f h ctr ((heapGet h i).getD ⟨"", []⟩).children).2.1,
        ⟨((heapGet h i).getD ⟨"", []⟩).payload,
         (dcList f h ctr ((heapGet h i).getD ⟨"", []⟩).children).2.2⟩)], ?_, ?_, ?_, ?_, ?_⟩
      · show (dcList f h ctr _).1 ++ [_] = _
        rw [he1, List.append_assoc]
      · intro e he
        simp only [List.mem_append, List.mem_singleton] at he
        rcases he with he | he
        · exact hid1 e he
        · subst he; exact hctr1
      · show ctr ≤ (dcList f h ctr _).2.1 + 1
        omega
      · exact hctr1
      · show (dcList f h ctr _).2.1 < (dcList f h ctr _).2.1 + 1
        omega
    · intro h ctr l
      cases l with
      | nil => exact ⟨[], by simp [dcList], by simp, by simp [dcList]⟩
      | cons i rest =>
        obtain ⟨ext1, he1, hid1, hctr1a, hroot1, hroot1b⟩ := ih.1 h ctr i
        obtain ⟨ext2, he2, hid2, hctr2⟩ :=
          ih.2 (dcNode f h ctr i).1 (dcNode f h ctr i).2.1 rest
        refine ⟨ext1 ++ ext2, ?_, ?_, ?_⟩
        · show (dcList f (dcNode f h ctr i).1 (dcNode f h ctr i).2.1 rest).1 = _
          rw [he2, he1, List.append_assoc]
        · intro e he
          simp only [List.mem_append] at he
          rcases he with he | he
          · exact hid1 e he
          · exact le_trans hctr1a (hid2 e he)
        · show ctr ≤ (dcList f (dcNode f h ctr i).1 (dcNode f h ctr i).2.1 rest).2.1
          exact le_trans hctr1a hctr2

theorem urlStep_cookies (r : RequestState) (ud : Userdata) :
    (urlStep r ud).cookies = r.cookies := by
  cases hr : r.url <;> simp [urlStep, hr]

theorem urlStep_headers (r : RequestState) (ud : Userdata) :
    (urlStep r ud).headers = r.headers := by
  cases hr : r.url <;> simp [urlStep, hr]

theorem urlStep_data (r : RequestState) (ud : Userdata) :
    (urlStep r ud).data = r.data := by
  cases hr : r.url <;> simp [urlStep, hr]

theorem urlStep_kwargs (r : RequestState) (ud : Userdata) :
    (urlStep r ud).kwargs = r.kwargs := by
  cases hr : r.url <;> simp [urlStep, hr]

theorem urlStep_method (r : RequestState) (ud : Userdata) :
    (urlStep r ud).method = r.method := by
  cases hr : r.url <;> simp [urlStep, hr]

theorem urlStep_logger (r : RequestState) (ud : Userdata) :
    (urlStep r ud).logger = r.logger := by
  cases hr : r.url <;> simp [urlStep, hr]

/-- Inversion of a successful send: the three resolution passes succeeded,
the returned state is the logger-bearing, url-resolved request, and the
result record carries the resolved containers and the computed warnings. -/
theorem send_ok_inv (req : RequestState) (cfg : Pconfig) (prompt : PromptOracle)
    (req' : RequestState) (res : SendResult)
    (h : Request.send req cfg prompt = .ok (req', res)) :
    ∃ cookies headers processed,
      process_cookies req.cookies cfg.userdata prompt = .ok cookies ∧
      process_headers req.headers cfg.userdata cfg prompt = .ok headers ∧
      process_data req.data cfg.userdata prompt = .ok processed ∧
      req' = urlStep { req with logger := some cfg.logger } cfg.userdata ∧
      res.warnings = (if req.method = "GET" ∧ sendAttrs req.kwargs ≠ [] then
          [SendWarning.getIgnored (sendAttrs req.kwargs)]
        else if sendAttrs req.kwargs ≠ [] then
          [SendWarning.undefinedBehaviour req.method (sendAttrs req.kwargs)]
        else []) ∧
      res.url = req'.url ∧ res.cookies = cookies ∧ res.headers = headers ∧
      res.dataOut = dget processed "data" ∧
      res.jsonOut = dget processed "json" ∧
      res.multipartOut = dget processed "multipart" := by
  unfold Request.send at h
  dsimp only at h
  rw [urlStep_cookies, urlStep_headers, urlStep_data, urlStep_kwargs,
    urlStep_method] at h
  dsimp only at h
  cases hc : process_cookies req.cookies cfg.userdata prompt with
  | error e => rw [hc] at h; simp [bind, Except.bind] at h
  | ok cookies =>
    rw [hc] at h
    simp only [bind, Except.bind] at h
    cases hh : process_headers req.headers cfg.userdata cfg prompt with
    | error e => rw [hh] at h; simp at h
    | ok headers =>
      rw [hh] at h
      dsimp only at h
      cases hd : process_data req.data cfg.userdata prompt with
      | error e => rw [hd] at h; simp at h
      | ok processed =>
        rw [hd] at h
        dsimp only at h
        refine ⟨cookies, headers, processed, rfl, rfl, rfl, ?_⟩
        by_cases hpk : "params" ∈ req.kwargs
        · rw [if_pos hpk] at h
          cases hpp : dget processed "params" with
          | none =>
            rw [hpp] at h
            simp [throw, throwThe, MonadExceptOf.throw, bind, Except.bind] at h
          | some dparams =>
            rw [hpp] at h
            simp only [bind, Except.bind, pure, Except.pure, Except.ok.injEq,
              Prod.mk.injEq] at h
            obtain ⟨h1, h2⟩ := h
            subst h1
            subst h2
            simp
        · rw [if_neg hpk] at h
          simp only [bind, Except.bind, pure, Except.pure, Except.ok.injEq,
            Prod.mk.injEq] at h
          obtain ⟨h1, h2⟩ := h
          subst h1
          subst h2
          simp

/- Concrete fixtures shared by the claim theorems below. -/

/-- A plugin with a fixed resolution value and no special flags. -/
def staticPlugin (n v : String) : Plugin := .mk n false false [] (fun _ => v)

/-- A plugin whose name is not known in advance and which resolves to
nothing. -/
def nnkEmptyPlugin (n : String) : Plugin := .mk n true false [] (fun _ => "")

/-- A prompt oracle standing for an operator who always presses enter,
that is, always skips. -/
def silentPrompt : PromptOracle := fun _ _ => ""

/-- A run-configuration fixture. -/
def cfgTest : Pconfig :=
  { user_agent := "Raider", userdata := [], verify := true,
    use_proxy := false, proxy := "", logger := "log" }

/-- C10: for a cookie store containing an entry whose plugin has
NAME_NOT_KNOWN_IN_ADVANCE set and whose resolution and prompt both yield
an empty value, process_cookies raises KeyError instead of returning a
mapping: the name-not-known branch pops the store key once (request.py
line 64) and the empty-value drop pops the same, now absent, key a second
time (line 69). -/
theorem C10_nnk_empty_cookie_keyerror :
    process_cookies [("sess", nnkEmptyPlugin "sess")] [] silentPrompt =
      .error .keyError := rfl

/-- C1: the claim says that an entry whose plugin and prompt both yield an
empty value is dropped from the output with no error ever raised by the
resolution function. The code violates this: a header entry whose plugin
has NAME_NOT_KNOWN_IN_ADVANCE set is popped at the store key (request.py
line 84) and then popped again at name.lower() (line 89), which is the
same key, so process_headers raises KeyError instead of returning a
mapping without the entry. The spec (drop silently, no error, resolution
issues absorbed locally) is clearly the intent and the second pop a slip.
This theorem evaluates the embedded process_headers at the failing
input. -/
theorem C1_empty_drop_raises_keyerror :
    process_headers [("token", nnkEmptyPlugin "Token")] [] cfgTest
      silentPrompt = .error .keyError := rfl

/-- C2: the claim says that when a body key is a plugin whose resolution
(after prompting) is empty, the whole entry is dropped and the traversal
completes without raising. The code violates this: the entry was already
popped when its value was read (request.py line 118), and the
empty-new-key branch pops the same key again (line 123), so traverse_dict
raises KeyError on every empty dynamic key. The spec (drop the entry
entirely, no error) is clearly the intent and the second pop a slip. This
theorem evaluates the embedded process_data at the failing input: a json
group with one entry whose key is a plugin resolving to nothing. -/
theorem C2_empty_key_raises_keyerror :
    process_data [("json", [(PKey.plug 0 (Plugin.mk "dynkey" false false []
      (fun _ => "")), PVal.s "v")])] [] silentPrompt = .error .keyError := rfl

/-- A request fixture whose json body group holds a plugin value. -/
def req3 : RequestState :=
  { method := "POST", url := .s "http://example.com", cookies := [],
    headers := [],
    data := [("json", [(.s "k", .plug (staticPlugin "secret" "s3cr3t"))])],
    kwargs := ["json"], logger := none }

/-- C3: the claim says list_inputs contains every body key or body value
that is a plugin. The code violates this: its final loop runs over
self.data.items() (request.py line 305), whose keys are the group-name
strings and whose values are the DataStore containers, so the two
isinstance(..., Plugin) tests are never true and no body plugin is ever
registered. The spec (input discovery covers every body key/value plugin)
is clearly the intent and looping over the wrong level a slip. At the
failing input req3, whose json group holds the plugin named secret, the
embedded list_inputs returns the empty mapping. -/
theorem C3_list_inputs_misses_body_plugins :
    Request.list_inputs req3 = [] := rfl

/-- C4 counterexample: a container entry for a plugin named user-agent
that resolves to a non-empty value overwrites the injected user-agent
entry, because the injection (request.py line 80) runs before the
resolution loop and the loop stores resolved values under the plugin name
(line 91). At this concrete input the returned mapping carries EVIL, not
the run configuration value, refuting the claim that no container entry
can make the output carry a different user-agent value. -/
theorem C4_counterexample :
    process_headers [("user-agent", staticPlugin "user-agent" "EVIL")] []
        cfgTest silentPrompt = .ok [("user-agent", CV.s "EVIL")] ∧
      ("EVIL" : String) ≠ cfgTest.user_agent :=
  ⟨rfl, by decide⟩

/-- C4 (amended): process_headers injects the user-agent entry from the
run configuration before the loop, overriding any pre-existing container
entry stored under that key; for every container none of whose entries
has the store key user-agent or a name lowercasing to user-agent, any
successfully returned mapping carries the run configuration value under
user-agent. Entries that do target user-agent are processed after the
injection and can replace or remove it. -/
theorem C4_amended (raw : List (String × Plugin)) (ud : Userdata)
    (cfg : Pconfig) (prompt : PromptOracle) (m : List (String × CV))
    (hk : ∀ e ∈ raw, e.1 ≠ "user-agent" ∧ pyLower e.2.name ≠ "user-agent")
    (h : process_headers raw ud cfg prompt = .ok m) :
    dget m "user-agent" = some (.s cfg.user_agent) := by
  have h2 : headerLoop ud prompt raw
      (dupdate (raw.map (fun e => (e.1, CV.plug e.2))) "user-agent"
        (.s cfg.user_agent)) = .ok m := h
  have hloop := headerLoop_preserve ud prompt "user-agent" raw
    (dupdate (raw.map (fun e => (e.1, CV.plug e.2))) "user-agent"
      (.s cfg.user_agent)) m ?_ h2
  · rw [hloop, dget_dupdate_self]
  · intro e he
    refine ⟨(hk e he).1, ?_, (hk e he).2⟩
    intro hn
    apply (hk e he).2
    rw [hn]
    rfl

/-- C4 witness: a header store with one ordinary entry; the returned
mapping carries the configured user-agent. -/
theorem C4_amended_witness :
    (∀ e ∈ [("x-token", staticPlugin "x-token" "t0k")],
      e.1 ≠ "user-agent" ∧ pyLower e.2.name ≠ "user-agent") ∧
    dget [("x-token", CV.s "t0k"), ("user-agent", CV.s "Raider")]
      "user-agent" = some (.s cfgTest.user_agent) :=
  ⟨by decide, C4_amended [("x-token", staticPlugin "x-token" "t0k")] []
    cfgTest silentPrompt [("x-token", CV.s "t0k"), ("user-agent", CV.s "Raider")]
    (by decide) rfl⟩

/-- A POST request fixture carrying only the data body group. -/
def req5 : RequestState :=
  { method := "POST", url := .s "http://example.com/login", cookies := [],
    headers := [], data := [("data", [])], kwargs := ["data"], logger := none }

/-- The state req5 reaches after send. -/
def req5sent : RequestState := { req5 with logger := some "log" }

/-- The transport-call record produced by sending req5. -/
def res5 : SendResult :=
  { warnings := [.undefinedBehaviour "POST" ["data"]],
    url := .s "http://example.com/login", cookies := [],
    headers := [("user-agent", CV.s "Raider")], proxies := none,
    verify := true, params := none, dataOut := some [], jsonOut := none,
    multipartOut := none }

/-- C5 counterexample: the claim says a single body group on a non-GET
request produces no warning, but send warns whenever at least one of data,
json, multipart is present (the elif on request.py line 367 tests
non-emptiness, not multiplicity): this POST request carries only the data
group and still receives the undefined-behaviour warning. -/
theorem C5_counterexample :
    Request.send req5 cfgTest silentPrompt = .ok (req5sent, res5) ∧
      res5.warnings = [.undefinedBehaviour "POST" ["data"]] :=
  ⟨rfl, rfl⟩

/-- C5 (amended): during a successful send, when the method is GET the
warning listing the ignored groups is emitted exactly when at least one of
data, json, multipart is present; when the method is not GET the
undefined-behaviour warning is emitted exactly when at least one of those
groups is present (already a single group triggers it); in both cases the
request proceeds with no group discarded: every input body group is still
present in the resolved output handed to the transport. -/
theorem C5_amended (req : RequestState) (cfg : Pconfig) (prompt : PromptOracle)
    (req' : RequestState) (res : SendResult)
    (h : Request.send req cfg prompt = .ok (req', res)) :
    (req.method = "GET" →
      (SendWarning.getIgnored (sendAttrs req.kwargs) ∈ res.warnings ↔
        sendAttrs req.kwargs ≠ [])) ∧
    (req.method ≠ "GET" →
      (SendWarning.undefinedBehaviour req.method (sendAttrs req.kwargs) ∈
          res.warnings ↔ sendAttrs req.kwargs ≠ [])) ∧
    ((dget req.data "data").isSome → res.dataOut.isSome) ∧
    ((dget req.data "json").isSome → res.jsonOut.isSome) ∧
    ((dget req.data "multipart").isSome → res.multipartOut.isSome) := by
  obtain ⟨cookies, headers, processed, hc, hh, hd, hreq, hw, hu, hck, hhd,
    hdo, hjo, hmo⟩ := send_ok_inv req cfg prompt req' res h
  have hkeys := pdLoop_isSome cfg.userdata prompt req.data processed hd
  refine ⟨?_, ?_, ?_, ?_, ?_⟩
  · intro hget
    rw [hw]
    by_cases ha : sendAttrs req.kwargs = []
    · simp [ha]
    · simp [hget, ha]
  · intro hget
    rw [hw]
    by_cases ha : sendAttrs req.kwargs = []
    · simp [ha]
    · simp [hget, ha]
  · intro hs
    rw [hdo, hkeys "data"]
    exact hs
  · intro hs
    rw [hjo, hkeys "json"]
    exact hs
  · intro hs
    rw [hmo, hkeys "multipart"]
    exact hs

/-- C5 witness: the amended statement instantiated at the concrete POST
request carrying only the data group. -/
theorem C5_amended_witness :
    Request.send req5 cfgTest silentPrompt = .ok (req5sent, res5) ∧
    ((req5.method = "GET" →
      (SendWarning.getIgnored (sendAttrs req5.kwargs) ∈ res5.warnings ↔
        sendAttrs req5.kwargs ≠ [])) ∧
    (req5.method ≠ "GET" →
      (SendWarning.undefinedBehaviour req5.method (sendAttrs req5.kwargs) ∈
          res5.warnings ↔ sendAttrs req5.kwargs ≠ [])) ∧
    ((dget req5.data "data").isSome → res5.dataOut.isSome) ∧
    ((dget req5.data "json").isSome → res5.jsonOut.isSome) ∧
    ((dget req5.data "multipart").isSome → res5.multipartOut.isSome)) :=
  ⟨rfl, C5_amended req5 cfgTest silentPrompt req5sent res5 rfl⟩

/-- C9: during a successful send, a Plugin url is resolved against the
user-data context and the result is stored back onto the url attribute in
place (the field no longer holds the plugin afterwards), an empty
resolution is stored and passed through as the url rather than dropped,
and the method, headers, cookies and body-data fields of the request are
unchanged. -/
theorem C9_url_resolved_in_place (req : RequestState) (cfg : Pconfig)
    (prompt : PromptOracle) (req' : RequestState) (res : SendResult)
    (h : Request.send req cfg prompt = .ok (req', res)) :
    (∀ p, req.url = .plug p → req'.url = .s (p.get_value cfg.userdata)) ∧
    (∀ v, req.url = .s v → req'.url = .s v) ∧
    res.url = req'.url ∧
    req'.method = req.method ∧ req'.headers = req.headers ∧
    req'.cookies = req.cookies ∧ req'.data = req.data ∧
    req'.kwargs = req.kwargs := by
  obtain ⟨cookies, headers, processed, hc, hh, hd, hreq, hw, hu, hck, hhd,
    hdo, hjo, hmo⟩ := send_ok_inv req cfg prompt req' res h
  subst hreq
  refine ⟨?_, ?_, hu, ?_, ?_, ?_, ?_, ?_⟩
  · intro p hp
    simp [urlStep, hp]
  · intro v hv
    simp [urlStep, hv]
  · rw [urlStep_method]
  · rw [urlStep_headers]
  · rw [urlStep_cookies]
  · rw [urlStep_data]
  · rw [urlStep_kwargs]

/-- A GET request fixture whose url is a plugin resolving to nothing. -/
def req9 : RequestState :=
  { method := "GET", url := .plug (Plugin.mk "next-url" false false []
      (fun _ => "")), cookies := [], headers := [], data := [],
    kwargs := [], logger := none }

/-- The state req9 reaches after send: the empty resolution is stored onto
the url attribute. -/
def req9sent : RequestState :=
  { req9 with url := .s "", logger := some "log" }

/-- The transport-call record produced by sending req9. -/
def res9 : SendResult :=
  { warnings := [], url := .s "", cookies := [],
    headers := [("user-agent", CV.s "Raider")], proxies := none,
    verify := true, params := none, dataOut := none, jsonOut := none,
    multipartOut := none }

/-- C9 witness: sending the concrete request req9 whose url plugin
resolves to the empty string. -/
theorem C9_witness :
    Request.send req9 cfgTest silentPrompt = .ok (req9sent, res9) ∧
    ((∀ p, req9.url = .plug p →
        req9sent.url = .s (p.get_value cfgTest.userdata)) ∧
    (∀ v, req9.url = .s v → req9sent.url = .s v) ∧
    res9.url = req9sent.url ∧
    req9sent.method = req9.method ∧ req9sent.headers = req9.headers ∧
    req9sent.cookies = req9.cookies ∧ req9sent.data = req9.data ∧
    req9sent.kwargs = req9.kwargs) :=
  ⟨rfl, C9_url_resolved_in_place req9 cfgTest silentPrompt req9sent res9 rfl⟩

/-- A template fixture with one base cookie and one base header. -/
def tplBase : RequestState :=
  { method := "GET", url := .s "http://base", 
    cookies := [("a", staticPlugin "a" "1")],
    headers := [("x-old", staticPlugin "x-old" "o")], data := [],
    kwargs := [], logger := none }

/-- C7 counterexample: the claim says a method or url override replaces
the field wholesale, but the code guards every override with a Python
truthiness test (if method, if url on request.py lines 447 and 450), so
calling the template with the empty-string method override leaves the base
method in place instead of storing the override. -/
theorem C7_counterexample :
    (Template.call tplBase (some "") none none none none).method = "GET" ∧
      ("GET" : String) ≠ "" :=
  ⟨rfl, by decide⟩

/-- C7 (amended): a non-empty (truthy) method or url override replaces the
field wholesale with no merging, while an empty-string override is ignored
by the truthiness guard; a cookies or headers override is merged: the
resulting container binds every name to the override entry when the
override store carries that name, and to the base entry otherwise, so base
entries absent from the override are preserved. -/
theorem C7_amended (t : RequestState) (m : String) (u : UrlV)
    (cs hs : List Plugin) (hm : m ≠ "") (hu : urlTruthy u = true) :
    (Template.call t (some m) none none none none).method = m ∧
    (Template.call t none (some u) none none none).url = u ∧
    (∀ k, dget (Template.call t none none (some cs) none none).cookies k =
      (dget (CookieStore.fromList cs) k <|> dget t.cookies k)) ∧
    (∀ k, dget (Template.call t none none none (some hs) none).headers k =
      (dget (HeaderStore.fromList hs) k <|> dget t.headers k)) := by
  refine ⟨?_, ?_, ?_, ?_⟩
  · simp [Template.call, hm]
  · simp [Template.call, hu]
  · intro k
    cases cs with
    | nil => simp [Template.call, CookieStore.fromList, dget]
    | cons c rest =>
      show dget (dmerge t.cookies (CookieStore.fromList (c :: rest))) k = _
      rw [dget_dmerge, dgetLast_eq_dget_of_nodup]
      exact nodup_keys_foldl_dupdate (fun p => p.name) (fun p => p)
        (c :: rest) [] (by simp [keysOf])
  · intro k
    cases hs with
    | nil => simp [Template.call, HeaderStore.fromList, dget]
    | cons c rest =>
      show dget (dmerge t.headers (HeaderStore.fromList (c :: rest))) k = _
      rw [dget_dmerge, dgetLast_eq_dget_of_nodup]
      exact nodup_keys_foldl_dupdate (fun p => pyLower p.name) (fun p => p)
        (c :: rest) [] (by simp [keysOf])

/-- C7 witness: the amended statement instantiated at the template fixture
with a POST method override, a url override, and one-element cookie and
header overrides; the cookie lookup is sampled at the base name a, which
the override does not carry and which is preserved. -/
theorem C7_amended_witness :
    ("POST" : String) ≠ "" ∧ urlTruthy (.s "http://x") = true ∧
    (Template.call tplBase (some "POST") none none none none).method = "POST" ∧
    (Template.call tplBase none (some (.s "http://x")) none none none).url =
      .s "http://x" ∧
    dget (Template.call tplBase none none (some [staticPlugin "b" "2"])
        none none).cookies "a" =
      (dget (CookieStore.fromList [staticPlugin "b" "2"]) "a" <|>
        dget tplBase.cookies "a") :=
  have h := C7_amended tplBase "POST" (.s "http://x") [staticPlugin "b" "2"]
    [staticPlugin "h" "2"] (by decide) rfl
  ⟨by decide, rfl, h.1, h.2.1, h.2.2.1 "a"⟩

/-- C8 counterexample: the claim says a fully literal container resolves
to exactly its own name-to-value mapping, for body groups, cookie stores
and header stores alike. For header stores this fails: process_headers
always injects the run-configuration user-agent entry, so even a
single-entry literal header store yields a mapping with a user-agent
binding that the container mapping does not have. -/
theorem C8_counterexample :
    (process_headers [("x-api", staticPlugin "x-api" "v")] [] cfgTest
        silentPrompt).map (fun m => dget m "user-agent") =
      .ok (some (CV.s "Raider")) ∧
    dget [("x-api", CV.s "v")] "user-agent" = none :=
  ⟨rfl, rfl⟩

/-- C8 (amended): resolution of fully literal containers is exact and
idempotent, except that header stores additionally receive the injected
user-agent entry. A body group all of whose entries are literal strings
traverses to exactly itself, in any call count. A cookie store all of
whose entries are such plugins with distinct known names and fixed
non-empty values yields exactly the name-to-value mapping. A header store
of the same shape, whose store keys are the plugin names and carry no
user-agent entry, yields exactly the name-to-value mapping followed by the
injected user-agent entry. -/
theorem C8_amended :
    (∀ (raw : List (String × List (PKey × PVal))) (ud : Userdata)
        (prompt : PromptOracle), (∀ e ∈ raw, flatLit e.2) →
        process_data raw ud prompt = .ok raw) ∧
    (∀ (raw : List (String × Plugin)) (ud : Userdata) (prompt : PromptOracle),
        (keysOf raw).Nodup →
        (∀ e ∈ raw, e.1 = e.2.name ∧ e.2.name_not_known_in_advance = false ∧
          e.2.get_value ud ≠ "") →
        process_cookies raw ud prompt =
          .ok (raw.map (fun e => (e.1, CV.s (e.2.get_value ud))))) ∧
    (∀ (raw : List (String × Plugin)) (ud : Userdata) (cfg : Pconfig)
        (prompt : PromptOracle),
        (keysOf raw).Nodup →
        (∀ e ∈ raw, e.1 = e.2.name ∧ e.2.name_not_known_in_advance = false ∧
          e.2.get_value ud ≠ "" ∧ e.1 ≠ "user-agent") →
        process_headers raw ud cfg prompt =
          .ok ((raw.map (fun e => (e.1, CV.s (e.2.get_value ud)))) ++
            [("user-agent", .s cfg.user_agent)])) := by
  refine ⟨?_, ?_, ?_⟩
  · intro raw ud prompt hflat
    exact process_data_lit ud prompt raw hflat
  · intro raw ud prompt hnd hyp
    have hfold := foldl_dupdate_map raw (fun p => CV.s (p.get_value ud)) []
      hnd (fun e he => (hyp e he).1)
    rw [List.append_nil, List.append_nil] at hfold
    show cookieLoop ud prompt raw (raw.map (fun e => (e.1, CV.plug e.2))) = _
    rw [cookieLoop_static ud prompt raw _
      (fun e he => ⟨(hyp e he).2.1, (hyp e he).2.2⟩)]
    exact congrArg Except.ok hfold
  · intro raw ud cfg prompt hnd hyp
    have hfold := foldl_dupdate_map raw (fun p => CV.s (p.get_value ud))
      [("user-agent", .s cfg.user_agent)] hnd (fun e he => (hyp e he).1)
    have hinit : dupdate (raw.map (fun e => (e.1, CV.plug e.2))) "user-agent"
        (.s cfg.user_agent) =
        raw.map (fun e => (e.1, CV.plug e.2)) ++
          [("user-agent", .s cfg.user_agent)] := by
      apply dupdate_append_of_not_mem
      intro hmem
      simp only [keysOf, List.map_map, List.mem_map] at hmem
      obtain ⟨e, he, heq⟩ := hmem
      exact (hyp e he).2.2.2 heq
    show headerLoop ud prompt raw _ = _
    rw [hinit, headerLoop_static ud prompt raw _
      (fun e he => ⟨(hyp e he).2.1, (hyp e he).2.2.1⟩)]
    exact congrArg Except.ok hfold

/-- C8 witness: the amended statement instantiated at a one-entry literal
body group, a one-entry static cookie store and a one-entry static header
store. -/
theorem C8_amended_witness :
    (∀ e ∈ [("data", [(PKey.s "k", PVal.s "v")])], flatLit e.2) ∧
    process_data [("data", [(PKey.s "k", PVal.s "v")])] [] silentPrompt =
      .ok [("data", [(PKey.s "k", PVal.s "v")])] ∧
    process_cookies [("c", staticPlugin "c" "1")] [] silentPrompt =
      .ok [("c", CV.s "1")] ∧
    process_headers [("h", staticPlugin "h" "2")] [] cfgTest silentPrompt =
      .ok [("h", CV.s "2"), ("user-agent", CV.s "Raider")] := by
  have h := C8_amended
  refine ⟨?_, ?_, ?_, ?_⟩
  · intro e he
    intro x hx
    simp only [List.mem_cons, List.not_mem_nil, or_false] at he
    subst he
    simp only [List.mem_cons, List.not_mem_nil, or_false] at hx
    subst hx
    exact ⟨rfl, rfl⟩
  · exact h.1 [("data", [(PKey.s "k", PVal.s "v")])] [] silentPrompt
      (by
        intro e he x hx
        simp only [List.mem_cons, List.not_mem_nil, or_false] at he
        subst he
        simp only [List.mem_cons, List.not_mem_nil, or_false] at hx
        subst hx
        exact ⟨rfl, rfl⟩)
  · exact h.2.1 [("c", staticPlugin "c" "1")] [] silentPrompt
      (by simp [keysOf]) (by decide)
  · exact h.2.2 [("h", staticPlugin "h" "2")] [] cfgTest silentPrompt
      (by simp [keysOf]) (by decide)

/-- A three-object heap fixture: the template root (identity 0) pointing
at its own default cookie plugin (identity 1), and a caller-owned override
header plugin (identity 2). All identities are below the fresh base 3. -/
def c6heap0 : PHeap :=
  [(0, ⟨"tpl", [1]⟩), (1, ⟨"cookie-default", []⟩), (2, ⟨"H-override", []⟩)]

/-- The first template invocation, passing the override object 2. -/
def c6call1 : PHeap × Nat × Nat := templateCallHeap c6heap0 5 3 0 [2]

/-- The second template invocation on the resulting heap, passing the same
override object 2. -/
def c6call2 : PHeap × Nat × Nat := templateCallHeap c6call1.1 5 c6call1.2.1 0 [2]

/-- C6 counterexample: the claim says mutating anything reachable from one
produced instance never changes another instance of the same template. But
Template.__call__ deepcopies only the template itself and then merges the
override objects by reference, so two invocations given the same override
plugin share it: the object with identity 2 is reachable from both
instances, and mutating it through the first instance changes the value
the second instance reads. -/
theorem C6_counterexample :
    2 ∈ ((heapGet c6call2.1 c6call1.2.2).getD ⟨"", []⟩).children ∧
    2 ∈ ((heapGet c6call2.1 c6call2.2.2).getD ⟨"", []⟩).children ∧
    heapGet c6call2.1 2 = some ⟨"H-override", []⟩ ∧
    heapGet (heapSet c6call2.1 2 "H-mutated") 2 = some ⟨"H-mutated", []⟩ := by
  decide

/-- C6 (amended): the deep-copied state of an instance is fresh, so
mutating any object in the copied region of an invocation changes neither
the template objects nor the copied region of another invocation; only the
override objects, which are merged by reference, remain shared between the
caller, the instance, and any other instance given the same overrides.
Concretely: when every existing identity lies below the fresh base,
mutating any identity at or above the base leaves every reading of the
original heap unchanged; the invocation itself also leaves those readings
unchanged; and a mutation inside the first instance region never changes
what the second invocation heap stores outside that region. -/
theorem C6_amended (h : PHeap) (fuel base r : Nat) (ov1 ov2 : List Nat)
    (s : String) (i j : Nat)
    (_hids : ∀ e ∈ h, e.1 < base) (hi : base ≤ i) :
    (j < base →
      heapGet (heapSet (templateCallHeap h fuel base r ov1).1 i s) j =
        heapGet h j) ∧
    (j < base → heapGet (templateCallHeap h fuel base r ov1).1 j = heapGet h j) ∧
    (i < (templateCallHeap h fuel base r ov1).2.1 →
      ((templateCallHeap h fuel base r ov1).2.1 ≤ j ∨ j < base) →
      heapGet (heapSet (templateCallHeap (templateCallHeap h fuel base r ov1).1
          fuel (templateCallHeap h fuel base r ov1).2.1 r ov2).1 i s) j =
        heapGet (templateCallHeap (templateCallHeap h fuel base r ov1).1 fuel
          (templateCallHeap h fuel base r ov1).2.1 r ov2).1 j) := by
  obtain ⟨ext, hext, hid, hctr, hroot, hrootlt⟩ := (dc_spec fuel).1 h base r
  have hcall : ∀ j2, j2 < base →
      heapGet (templateCallHeap h fuel base r ov1).1 j2 = heapGet h j2 := by
    intro j2 hj2
    show heapGet (attachChildren (dcNode fuel h base r).1
      (dcNode fuel h base r).2.2 ov1) j2 = heapGet h j2
    rw [heapGet_attachChildren_ne _ _ _ _ (by omega)]
    rw [hext]
    exact heapGet_append_lt h ext j2 base hj2 hid
  refine ⟨?_, hcall j, ?_⟩
  · intro hj
    rw [heapGet_heapSet_ne _ _ _ _ (by omega)]
    exact hcall j hj
  · intro hlt hj
    have hij : i ≠ j := by
      rcases hj with hj | hj
      · omega
      · omega
    exact heapGet_heapSet_ne _ _ _ _ hij

/-- C6 witness: the amended statement instantiated at the concrete heap
fixture, mutating the copied root (identity 4) of the first instance and
reading the template root (identity 0). -/
theorem C6_amended_witness :
    (∀ e ∈ c6heap0, e.1 < 3) ∧ (3 ≤ 4) ∧
    (0 < 3 →
      heapGet (heapSet (templateCallHeap c6heap0 5 3 0 [2]).1 4 "changed") 0 =
        heapGet c6heap0 0) ∧
    (0 < 3 → heapGet (templateCallHeap c6heap0 5 3 0 [2]).1 0 = heapGet c6heap0 0) ∧
    (4 < (templateCallHeap c6heap0 5 3 0 [2]).2.1 →
      ((templateCallHeap c6heap0 5 3 0 [2]).2.1 ≤ 6 ∨ 6 < 3) →
      heapGet (heapSet (templateCallHeap (templateCallHeap c6heap0 5 3 0 [2]).1
          5 (templateCallHeap c6heap0 5 3 0 [2]).2.1 0 [2]).1 4 "changed") 6 =
        heapGet (templateCallHeap (templateCallHeap c6heap0 5 3 0 [2]).1 5
          (templateCallHeap c6heap0 5 3 0 [2]).2.1 0 [2]).1 6) :=
  have h0 := C6_amended c6heap0 5 3 0 [2] [2] "changed" 4 0 (by decide)
    (by decide)
  have h6 := C6_amended c6heap0 5 3 0 [2] [2] "changed" 4 6 (by decide)
    (by decide)
  ⟨by decide, by decide, h0.1, h0.2.1, h6.2.2⟩
